import Mathlib

/-
Verification of the OCR admission-forms pipeline.

Shallow embedding conventions:
- Python strings are modelled as lists of characters (abbrev Str), so that
  the cleaning and matching primitives compute by structural recursion.
- Python floats are modelled as rationals; the float comparison
  cumulative >= total / 2 is modelled exactly as 2 * cumulative >= total.
- A Python function that may raise is modelled with Except or Option; a
  backend call that raises is an Option.none outcome.
- PIL raster operations (LANCZOS resampling, contrast, sharpen, median
  filter) are external library calls, not code of this repository; they are
  passed as parameters in a PILOps record.  Everything the theorems say is
  independent of those parameters.
-/

/-! ## Text model -/

/-- Python strings as character lists. -/
abbrev Str := List Char

/-- The Python whitespace class backslash-s (ASCII part). -/
def isSpaceChar (c : Char) : Bool :=
  c = ' ' ∨ c = '\t' ∨ c = '\n' ∨ c = '\x0d' ∨ c = '\x0b' ∨ c = '\x0c'

/-- Python str.strip(): drop leading and trailing whitespace. -/
def pyStrip (s : Str) : Str :=
  ((s.dropWhile isSpaceChar).reverse.dropWhile isSpaceChar).reverse

/-! ## multi_provider.py : MultiProviderOCR -/

/-- One OCR extraction result (the dictionary returned by a provider):
raw text, confidence in [0,100], and the provider that produced it. -/
structure OCRResult where
  raw_text : Str
  confidence : ℚ
  provider_used : String
deriving DecidableEq, Repr

namespace MultiProviderOCR

/-- MultiProviderOCR._score_result: confidence * (1 + len(text.strip())/1000). -/
def score_result (r : OCRResult) : ℚ :=
  r.confidence * (1 + ((pyStrip r.raw_text).length : ℚ) / 1000)

/-- Python max(results, key=score): keep the first element, replacing it
only when a later element scores strictly higher (first maximum wins). -/
def maxByScore (best : OCRResult) : List OCRResult → OCRResult
  | [] => best
  | r :: rs => maxByScore (if score_result best < score_result r then r else best) rs

/-- The two failure modes of extract_with_best_provider:
the ValueError for an empty provider list, and the final
Exception("All OCR providers failed"). -/
inductive OCRFailure where
  | noProvidersAvailable
  | allProvidersFailed
deriving DecidableEq, Repr

/-- MultiProviderOCR.extract_with_best_provider.  Each backend invocation is
summarised by its outcome: some result, or none when extract_text raised
(the except-continue branch).  The successful outcomes are collected in
order and the best-scoring one is returned. -/
def extract_with_best_provider (outcomes : List (Option OCRResult)) :
    Except OCRFailure OCRResult :=
  if outcomes.isEmpty then .error .noProvidersAvailable
  else
    match outcomes.filterMap id with
    | [] => .error .allProvidersFailed
    | r :: rs => .ok (maxByScore r rs)

end MultiProviderOCR

/-- Result A of the worked example: confidence 90, ten characters of text. -/
def resA : OCRResult := ⟨List.replicate 10 'a', 90, "A"⟩

/-- Result B of the worked example: confidence 70, 2000 characters of text. -/
def resB : OCRResult := ⟨List.replicate 2000 'b', 70, "B"⟩

/-! ## Page aggregation (upload.py upload_form, benchmark.py) -/

/-- The per-page dictionary a provider returns, as the aggregation loops read
it: raw text plus an optional confidence (dict.get can give None). -/
structure PageOut where
  raw_text : Str
  confidence : Option ℚ
deriving DecidableEq, Repr

/-- One entry of page_results. -/
structure PageEntry where
  page : Nat
  raw_text : Str
  confidence : ℚ
deriving DecidableEq, Repr

/-- The combined OCR result dictionary built after the page loop. -/
structure AggregatedExtraction where
  raw_text : Str
  confidence : ℚ
  provider : String
  pages_processed : Nat
  page_results : List PageEntry
deriving DecidableEq, Repr

/-- Python truthiness of an optional float: None and 0.0 are falsy. -/
def pyTruthyConf : Option ℚ → Bool
  | none => false
  | some c => c ≠ 0

/-- Python round-half-to-even on an exact rational. -/
def pyRoundHalfEven (x : ℚ) : ℤ :=
  let f := ⌊x⌋
  let r := x - f
  if r < 1 / 2 then f
  else if 1 / 2 < r then f + 1
  else if f % 2 = 0 then f else f + 1

/-- Python round(x, 2). -/
def round2 (x : ℚ) : ℚ := (pyRoundHalfEven (100 * x) : ℚ) / 100

/-- The page separator inserted before each page text fragment. -/
def pageHeader (n : Nat) : Str :=
  ("\n--- Page " ++ Nat.repr n ++ " ---\n").toList

/-- One iteration of the upload_form page loop, acting on the accumulator
(all_raw_text, all_confidences, page_results).  The loop index x.1 is the
0-based page number; a none outcome is a page whose backend call raised,
handled by the except-continue branch, so it changes nothing. -/
def uploadStep (acc : List Str × List ℚ × List PageEntry) (x : Nat × Option PageOut) :
    List Str × List ℚ × List PageEntry :=
  match x.2 with
  | none => acc
  | some pr =>
    let texts := if pr.raw_text ≠ [] then acc.1 ++ [pageHeader (x.1 + 1) ++ pr.raw_text] else acc.1
    let confs :=
      if pr.raw_text ≠ [] ∧ pyTruthyConf pr.confidence then acc.2.1 ++ [pr.confidence.getD 0]
      else acc.2.1
    let entries := acc.2.2 ++ [⟨x.1 + 1, pr.raw_text, pr.confidence.getD 0⟩]
    (texts, confs, entries)

/-- upload.py upload_form, PDF branch: the per-page loop followed by the
construction of ocr_result.  Note pages_processed is len(pages), the number
of loaded pages, and the average is 0.0 when no confidence was collected. -/
def upload_form_aggregate (outcomes : List (Option PageOut)) (provider : String) :
    AggregatedExtraction :=
  let acc := outcomes.enum.foldl uploadStep ([], [], [])
  let combined := List.intercalate [ '\n' ] acc.1
  let avg : ℚ := if acc.2.1 = [] then 0 else acc.2.1.sum / (acc.2.1.length : ℚ)
  { raw_text := combined, confidence := round2 avg, provider := provider,
    pages_processed := outcomes.length, page_results := acc.2.2 }

/-- One iteration of the benchmark PDF page loop (enumerate starts at 1).
There is no per-page exception handler here: a raising page aborts the whole
file, so the input pages are all successful results.  A confidence is added
to the mean whenever it is numeric (isinstance check), even when 0.0; the
entry stores confidence-or-0.0, numerically equal to getD 0. -/
def benchStep (acc : List Str × List ℚ × List PageEntry) (x : Nat × PageOut) :
    List Str × List ℚ × List PageEntry :=
  let texts := if x.2.raw_text ≠ [] then acc.1 ++ [pageHeader x.1 ++ x.2.raw_text] else acc.1
  let confs := match x.2.confidence with
    | some c => acc.2.1 ++ [c]
    | none => acc.2.1
  let entries := acc.2.2 ++ [⟨x.1, x.2.raw_text, x.2.confidence.getD 0⟩]
  (texts, confs, entries)

/-- benchmark.py _extract_file_with_provider, PDF branch. -/
def benchmark_aggregate_pdf (pages : List PageOut) (provider : String) :
    AggregatedExtraction :=
  let acc := (List.enumFrom 1 pages).foldl benchStep ([], [], [])
  let combined := List.intercalate [ '\n' ] acc.1
  let avg : ℚ := if acc.2.1 = [] then 0 else acc.2.1.sum / (acc.2.1.length : ℚ)
  { raw_text := combined, confidence := round2 avg, provider := provider,
    pages_processed := acc.2.2.length, page_results := acc.2.2 }

/-- The page_results entry contributed by an enumerated page outcome. -/
def entryOf (x : Nat × Option PageOut) : Option PageEntry :=
  x.2.map (fun pr => ⟨x.1 + 1, pr.raw_text, pr.confidence.getD 0⟩)

/-- The confidence contributed by an enumerated page outcome to the mean. -/
def confOf (x : Nat × Option PageOut) : Option ℚ :=
  x.2.bind (fun pr =>
    if pr.raw_text ≠ [] ∧ pyTruthyConf pr.confidence then some (pr.confidence.getD 0) else none)

/-- The raw text fragment contributed by an enumerated page outcome. -/
def textFragOf (x : Nat × Option PageOut) : Option Str :=
  x.2.bind (fun pr =>
    if pr.raw_text ≠ [] then some (pageHeader (x.1 + 1) ++ pr.raw_text) else none)

/-- Direct description of the surviving page entries: one per successful
page, tagged with the 1-based position of the page in the source document. -/
def pageEntriesOf (outcomes : List (Option PageOut)) : List PageEntry :=
  outcomes.enum.filterMap entryOf

/-- Direct description of the confidences entering the mean. -/
def confsOf (outcomes : List (Option PageOut)) : List ℚ :=
  outcomes.enum.filterMap confOf

/-- Concrete page 1 of the three-page scenario. -/
def pageA : PageOut := ⟨ "pageone".toList, some 80 ⟩

/-- Concrete page 3 of the three-page scenario. -/
def pageC : PageOut := ⟨ "pagethree".toList, some 90 ⟩

/-- A page whose backend returned a confidence but an empty raw text. -/
def pageEmptyText : PageOut := ⟨ [], some 80 ⟩

/-! ## Image preprocessing (image_preprocessing.py) -/

/-- PIL color modes relevant to the pipeline; P stands for any mode other
than RGB, L and 1 (for example a palette or RGBA image). -/
inductive PMode where
  | RGB
  | L
  | BW
  | P
deriving DecidableEq, Repr

/-- A raster image: dimensions, mode and single-channel pixel content.  The
model tracks the luminance channel; converting an image whose channels are
equal to mode L keeps the value (ITU-R 601-2 luma of (v,v,v) is v), so the
conversions below only change the mode tag. -/
structure PImage where
  width : Nat
  height : Nat
  mode : PMode
  pixels : List Nat
deriving DecidableEq, Repr

/-- The external PIL raster operations used by the preprocessor (LANCZOS
resampling, ImageEnhance.Contrast, ImageEnhance.Sharpness, MedianFilter).
They are library calls, not code of this repository, so they are parameters
of the embedding; no theorem below depends on their values. -/
structure PILOps where
  resample : PImage → Nat → Nat → List Nat
  contrastPixels : ℚ → PImage → List Nat
  sharpenPixels : ℚ → PImage → List Nat
  medianPixels : ℤ → List Nat → List Nat

/-- A fixed instantiation of the external operations, used only to state
closed theorems; the statements never inspect the pixel content it makes. -/
def pilOps : PILOps :=
  ⟨fun _ w h => List.replicate (w * h) 0, fun _ img => img.pixels,
    fun _ img => img.pixels, fun _ px => px⟩

/-- PIL Image.histogram() of a grayscale image: 256 counts per gray level. -/
def histogram (img : PImage) : List Nat :=
  (List.range 256).map (fun v => img.pixels.count v)

/-- The loop of _auto_threshold: walk the histogram accumulating the count
and return the first level whose cumulative mass reaches half the pixels.
The float comparison cumulative >= total / 2 is exact as total <= 2 * cum. -/
def autoLoop (total : Nat) : Nat → List Nat → Nat → Option Nat
  | _, [], _ => none
  | level, count :: rest, cumulative =>
    let c := cumulative + count
    if total ≤ 2 * c then some level else autoLoop total (level + 1) rest c

/-- _auto_threshold: default 128, overwritten by the first level at which
the cumulative histogram reaches 50 percent of the pixels. -/
def auto_threshold (gray : PImage) : Nat :=
  let hist := histogram gray
  (autoLoop hist.sum 0 hist 0).getD 128

/-- Total pixel mass of the histogram. -/
def totalPixels (img : PImage) : Nat := (histogram img).sum

/-- Cumulative histogram mass up to and including a gray level. -/
def cumMass (img : PImage) (level : Nat) : Nat :=
  ((histogram img).take (level + 1)).sum

/-- The point function of binarize_image: 0 below the threshold, 255 from
the threshold up. -/
def binPoint (threshold x : Nat) : Nat := if x < threshold then 0 else 255

/-- binarize_image: convert to grayscale, resolve the threshold (None or an
out-of-range value selects the automatic one), threshold every pixel to pure
black or white, and convert back to RGB. -/
def binarize_image (image : PImage) (threshold : Option ℤ) : PImage :=
  let gray : PImage := { image with mode := PMode.L }
  let t : Nat :=
    match threshold with
    | none => auto_threshold gray
    | some v => if v < 0 ∨ 255 < v then auto_threshold gray else v.toNat
  let binary : PImage := { gray with mode := PMode.BW, pixels := gray.pixels.map (binPoint t) }
  { binary with mode := PMode.RGB }

/-- _resize_with_limit.  Python falsiness of max_dimension is none-or-zero;
int() truncation on the non-negative products is the floor. -/
def resize_with_limit (ops : PILOps) (image : PImage) (scale_factor : ℚ)
    (max_dimension : Option ℤ) : PImage :=
  if scale_factor ≤ 1 ∧ (max_dimension = none ∨ max_dimension = some 0) then image
  else
    let largest_edge : ℚ := ((max image.width image.height : Nat) : ℚ)
    let md : ℚ := ((max_dimension.getD 0 : ℤ) : ℚ)
    let target : ℚ :=
      if 0 < max_dimension.getD 0 then
        let t1 := if md < largest_edge * scale_factor then md / largest_edge else scale_factor
        if t1 < 1 ∧ 1 < scale_factor then min scale_factor (md / largest_edge) else t1
      else scale_factor
    if target ≤ 0 ∨ |target - 1| < 1 / 1000 then image
    else
      let w := (⌊(image.width : ℚ) * target⌋).toNat
      let h := (⌊(image.height : ℚ) * target⌋).toNat
      { width := w, height := h, mode := image.mode, pixels := ops.resample image w h }

/-- preprocess_image: RGB conversion, scaling, contrast, sharpen, denoise
(grayscale median filter with the kernel forced to the next odd size of at
least 3, Python modulo on a possibly negative size), optional binarization.
There is no input validation of the image dimensions anywhere. -/
def preprocess_image (ops : PILOps) (image : PImage)
    (enhance_contrast denoise sharpen : Bool) (scale_factor : ℚ) (binarize : Bool)
    (contrast_factor sharpness_factor : ℚ) (denoise_size : ℤ)
    (binarize_threshold : Option ℤ) (max_dimension : Option ℤ) : PImage :=
  let processed := image
  let processed := if processed.mode ≠ PMode.RGB then { processed with mode := PMode.RGB } else processed
  let processed := resize_with_limit ops processed scale_factor max_dimension
  let processed :=
    if enhance_contrast then { processed with pixels := ops.contrastPixels contrast_factor processed }
    else processed
  let processed :=
    if sharpen then { processed with pixels := ops.sharpenPixels sharpness_factor processed }
    else processed
  let processed :=
    if denoise then
      let gray : PImage := { processed with mode := PMode.L }
      let kernel : ℤ := if denoise_size % 2 = 1 then denoise_size else denoise_size + 1
      let kernel : ℤ := max 3 kernel
      let gray : PImage := { gray with pixels := ops.medianPixels kernel gray.pixels }
      { gray with mode := PMode.RGB }
    else processed
  if binarize then binarize_image processed binarize_threshold else processed

/-- The OCR_PREPROCESSING_* block of config.py Settings. -/
structure OCRSettings where
  enabled : Bool
  enhance_contrast : Bool
  contrast_factor : ℚ
  denoise : Bool
  denoise_size : ℤ
  sharpen : Bool
  sharpness_factor : ℚ
  scale_factor : ℚ
  max_dimension : ℤ
  binarize : Bool
  binarize_threshold : ℤ

/-- The defaults declared in config.py. -/
def defaultSettings : OCRSettings :=
  ⟨true, true, 9 / 5, true, 3, true, 8 / 5, 2, 2400, true, -1⟩

/-- enhance_for_ocr: the configured preprocessing profile; max_dimension 0
is falsy, hence passed on as None. -/
def enhance_for_ocr (ops : PILOps) (s : OCRSettings) (image : PImage) : PImage :=
  if ¬s.enabled then image
  else
    preprocess_image ops image s.enhance_contrast s.denoise s.sharpen s.scale_factor
      s.binarize s.contrast_factor s.sharpness_factor s.denoise_size
      (some s.binarize_threshold) (if s.max_dimension = 0 then none else some s.max_dimension)

namespace TesseractProvider

/-- The validation prefix of TesseractProvider.extract_text: the None check,
the mode conversion for modes outside RGB, L and 1, the zero-dimension check,
and only then the optional preprocessing call.  The part of extract_text that
invokes the Tesseract engine afterwards is an external call and is not
modelled; this prefix is where the dimension validation of the pipeline
lives. -/
def validate_and_enhance (ops : PILOps) (s : OCRSettings) (image : Option PImage)
    (preprocess : Bool) : Except String PImage :=
  match image with
  | none => .error "Image object is None"
  | some img =>
    let img := if img.mode ∉ [PMode.RGB, PMode.L, PMode.BW] then { img with mode := PMode.RGB } else img
    if img.width = 0 ∨ img.height = 0 then .error "Image has invalid dimensions"
    else .ok (if preprocess then enhance_for_ocr ops s img else img)

end TesseractProvider

/-- The 1000 by 1000 image of the resize counterexample; the pixel content
is irrelevant to the dimension computation. -/
def img1000 : PImage := ⟨1000, 1000, PMode.L, []⟩

/-- A zero-dimension image. -/
def zeroImage : PImage := ⟨0, 0, PMode.L, []⟩

/-- A small concrete grayscale image used by witnesses. -/
def sampleGray : PImage := ⟨2, 2, PMode.L, [10, 200, 30, 240]⟩

/-! ## form_parser.py : SRCCFormParser -/

/-- Python word-class backslash-w (ASCII part): letters, digits, underscore. -/
def isWordChar (c : Char) : Bool := c.isAlpha || c.isDigit || c = '_'

/-- The characters the generic OCR-artifact cleaning keeps. -/
def keepChar (c : Char) : Bool :=
  isWordChar c || isSpaceChar c || c = '@' || c = '.' || c = ',' || c = '-' || c = '+' ||
    c = '(' || c = ')' || c = '/'

/-- Helper for whitespace collapsing; the flag records whether the previous
character belonged to the current whitespace run. -/
def nwsAux : Bool → Str → Str
  | _, [] => []
  | inRun, c :: cs =>
    if isSpaceChar c then
      if inRun then nwsAux true cs else ' ' :: nwsAux true cs
    else c :: nwsAux false cs

/-- re.sub of one or more whitespace characters by a single space. -/
def normalizeWS (s : Str) : Str := nwsAux false s

/-- Helper for whitespace splitting with the current word accumulated in
reverse. -/
def splitWSAux : Str → Str → List Str
  | [], acc => if acc = [] then [] else [acc.reverse]
  | c :: cs, acc =>
    if isSpaceChar c then
      if acc = [] then splitWSAux cs [] else acc.reverse :: splitWSAux cs []
    else splitWSAux cs (c :: acc)

/-- Python str.split() without arguments: split on whitespace runs, dropping
empty words. -/
def splitWS (s : Str) : List Str := splitWSAux s []

/-- Helper for single-character splitting, keeping empty segments. -/
def splitCharAux (ch : Char) : Str → Str → List Str
  | [], acc => [acc.reverse]
  | c :: cs, acc =>
    if c = ch then acc.reverse :: splitCharAux ch cs [] else splitCharAux ch cs (c :: acc)

/-- Python str.split(ch). -/
def splitChar (ch : Char) (s : Str) : List Str := splitCharAux ch s []

/-- Python str.capitalize(): first character upper-cased, the rest lowered. -/
def pyCapitalize : Str → Str
  | [] => []
  | c :: cs => c.toUpper :: cs.map Char.toLower

/-- The title-casing of name fields: capitalize each whitespace-separated
word and join with single spaces. -/
def titleCaseWords (s : Str) : Str :=
  List.intercalate [ ' ' ] ((splitWS s).map pyCapitalize)

/-- Python str.strip(comma): drop leading and trailing commas. -/
def pyStripCommas (s : Str) : Str :=
  ((s.dropWhile (fun c => c = ',')).reverse.dropWhile (fun c => c = ',')).reverse

/-- Decimal value of a digit string. -/
def digitsToNat (l : Str) : Nat := l.foldl (fun a c => a * 10 + (c.toNat - 48)) 0

/-- Python float() restricted to the sign-digits-dot strings the cleaning
step can produce; anything else (empty, double dot, stray characters) raises
in Python and is none here. -/
def parsePyFloat (s : Str) : Option ℚ :=
  let t := pyStrip s
  let st : ℚ × Str :=
    match t with
    | '-' :: r => (-1, r)
    | '+' :: r => (1, r)
    | _ => (1, t)
  let ip := st.2.takeWhile Char.isDigit
  let rest := st.2.dropWhile Char.isDigit
  match rest with
  | [] => if ip = [] then none else some (st.1 * (digitsToNat ip : ℚ))
  | '.' :: fr =>
    let fp := fr.takeWhile Char.isDigit
    if fr.dropWhile Char.isDigit ≠ [] then none
    else if ip = [] ∧ fp = [] then none
    else some (st.1 * ((digitsToNat ip : ℚ) + (digitsToNat fp : ℚ) / 10 ^ fp.length))
  | _ => none

/-- The name-class fields of _clean_value (title-cased). -/
def NAME_CLEAN_FIELDS : List String :=
  [ "student_name", "guardian_name", "father_name", "mother_name",
    "emergency_contact_name", "city", "state", "nationality", "religion"]

/-- The phone fields (cleaning keeps digits and plus; validation wants
10 to 15 digits). -/
def PHONE_FIELDS : List String :=
  [ "phone_number", "guardian_phone", "father_phone", "mother_phone",
    "alternate_phone", "emergency_contact_phone"]

/-- The date fields. -/
def DATE_FIELDS : List String := [ "date_of_birth", "admission_date"]

/-- The free-text fields whose cleaning collapses whitespace and strips
commas. -/
def FREETEXT_CLEAN_FIELDS : List String :=
  [ "permanent_address", "correspondence_address", "tenth_school",
    "twelfth_school", "previous_qualification", "graduation_details"]

/-- The identifier fields (cleaning keeps digits and hyphens). -/
def ID_CLEAN_FIELDS : List String := [ "aadhar_number", "pincode", "application_number"]

/-- The numeric fields (cleaning keeps digits and dots). -/
def NUMERIC_CLEAN_FIELDS : List String :=
  [ "tenth_percentage", "twelfth_percentage", "annual_income"]

/-- The fields cleaned to upper case. -/
def UPPER_CLEAN_FIELDS : List String := [ "gender", "category", "blood_group"]

/-- The name-class fields of _validate_value. -/
def NAME_VALID_FIELDS : List String :=
  [ "student_name", "guardian_name", "father_name", "mother_name",
    "emergency_contact_name", "city", "state"]

/-- The address fields of _validate_value (at least 10 characters). -/
def ADDRESS_VALID_FIELDS : List String := [ "permanent_address", "correspondence_address"]

/-- The 3-to-100-character fields of _validate_value. -/
def COURSE_VALID_FIELDS : List String :=
  [ "course_applied", "previous_qualification", "tenth_school", "twelfth_school"]

/-- The percentage fields of _validate_value (must parse into [0,100]). -/
def PCT_VALID_FIELDS : List String := [ "tenth_percentage", "twelfth_percentage"]

namespace SRCCFormParser

/-- SRCCFormParser._clean_value: strip, drop OCR artifacts outside the kept
character class, collapse whitespace, apply the field-class-specific
cleaning, and strip again. -/
def clean_value (value0 : Str) (field_name : String) : Str :=
  let value := pyStrip value0
  let value := value.filter keepChar
  let value := normalizeWS value
  let value :=
    if field_name ∈ NAME_CLEAN_FIELDS then titleCaseWords value
    else if field_name = "email" then pyStrip (value.map Char.toLower)
    else if field_name ∈ PHONE_FIELDS then value.filter (fun c => c.isDigit || c = '+')
    else if field_name ∈ DATE_FIELDS then
      value.filter (fun c => c.isDigit || c = '/' || c = '-' || c = '.')
    else if field_name ∈ FREETEXT_CLEAN_FIELDS then pyStripCommas (normalizeWS value)
    else if field_name ∈ ID_CLEAN_FIELDS then value.filter (fun c => c.isDigit || c = '-')
    else if field_name ∈ NUMERIC_CLEAN_FIELDS then value.filter (fun c => c.isDigit || c = '.')
    else if field_name ∈ UPPER_CLEAN_FIELDS then value.map Char.toUpper
    else value
  pyStrip value

/-- SRCCFormParser._validate_value: the universal floor (non-empty and at
least two characters) followed by the field-class-specific checks. -/
def validate_value (value : Str) (field_name : String) : Bool :=
  if value = [] ∨ value.length < 2 then false
  else if field_name ∈ NAME_VALID_FIELDS then
    decide (2 ≤ value.length ∧ value.length ≤ 50) && value.any Char.isAlpha
  else if field_name = "email" then
    value.contains '@' &&
      (match (splitChar '@' value).get? 1 with
        | some seg => seg.contains '.'
        | none => false) &&
      decide (5 ≤ value.length)
  else if field_name ∈ PHONE_FIELDS then
    decide (10 ≤ (value.filter Char.isDigit).length ∧ (value.filter Char.isDigit).length ≤ 15)
  else if field_name ∈ DATE_FIELDS then decide (8 ≤ value.length ∧ value.length ≤ 12)
  else if field_name ∈ ADDRESS_VALID_FIELDS then decide (10 ≤ value.length)
  else if field_name = "aadhar_number" then decide ((value.filter Char.isDigit).length = 12)
  else if field_name = "pincode" then decide ((value.filter Char.isDigit).length = 6)
  else if field_name ∈ COURSE_VALID_FIELDS then decide (3 ≤ value.length ∧ value.length ≤ 100)
  else if field_name ∈ PCT_VALID_FIELDS then
    match parsePyFloat value with
    | some q => decide (0 ≤ q ∧ q ≤ 100)
    | none => false
  else true

/-- A pattern attempt on the normalized text: error models re.search (or the
group access) raising inside the per-pattern try block, ok none a pattern
that does not match, ok some the text captured by the group. -/
def Matcher : Type := Str → Except Unit (Option Str)

/-- SRCCFormParser._extract_field: try the patterns in priority order; an
exception or a failed match or a failed validation falls through to the next
pattern; the first match whose cleaned value validates wins. -/
def extract_field (text : Str) : List Matcher → String → Option Str
  | [], _ => none
  | p :: rest, field_name =>
    match p text with
    | .error _ => extract_field text rest field_name
    | .ok none => extract_field text rest field_name
    | .ok (some value) =>
      if value = [] then extract_field text rest field_name
      else
        let cleaned := clean_value value field_name
        if validate_value cleaned field_name then some cleaned
        else extract_field text rest field_name

/-- The body of the field loop of SRCCFormParser.parse: a truthy extracted
value is inserted for its field, otherwise the mapping is unchanged. -/
def parseStep (text : Str) (parsed : List (String × Str)) (fp : String × List Matcher) :
    List (String × Str) :=
  match extract_field text fp.2 fp.1 with
  | some value => if value ≠ [] then parsed ++ [(fp.1, value)] else parsed
  | none => parsed

/-- SRCCFormParser.parse: normalize whitespace, then extract every field of
the pattern table independently.  The unused text_lower and lines locals of
the source are omitted. -/
def parse (table : List (String × List Matcher)) (raw_text : Str) : List (String × Str) :=
  let text := normalizeWS raw_text
  table.foldl (parseStep text) []

/-- The contribution of one pattern-table entry to the parse result. -/
def fieldEntryOf (text : Str) (fp : String × List Matcher) : Option (String × Str) :=
  (extract_field text fp.2 fp.1).bind
    (fun value => if value ≠ [] then some (fp.1, value) else none)

/-- A matcher that raises on every input. -/
def raisingMatcher : Matcher := fun _ => .error ()

/-- The keys of FIELD_PATTERNS, in source order. -/
def FIELD_PATTERN_KEYS : List String :=
  [ "student_name", "date_of_birth", "gender", "category", "nationality", "religion",
    "aadhar_number", "blood_group", "permanent_address", "correspondence_address",
    "pincode", "city", "state", "phone_number", "alternate_phone", "email",
    "emergency_contact_name", "emergency_contact_phone", "father_name",
    "father_occupation", "father_phone", "mother_name", "mother_occupation",
    "mother_phone", "guardian_name", "guardian_relation", "guardian_phone",
    "annual_income", "tenth_board", "tenth_year", "tenth_percentage", "tenth_school",
    "twelfth_board", "twelfth_year", "twelfth_percentage", "twelfth_school",
    "previous_qualification", "graduation_details", "course_applied",
    "application_number", "admission_date"]

/-- A pattern table with the right keys and no patterns, used by witnesses. -/
def emptyPatternsTable : List (String × List Matcher) :=
  FIELD_PATTERN_KEYS.map (fun f => (f, []))

end SRCCFormParser

/-! ### Backtracking matchers for the aadhaar regexes

A match state is a list of (consumed, rest) pairs in regex backtracking
priority order; re.search semantics are the earliest position at which the
priority list is non-empty, taking its first element. -/

/-- All ways a pattern can consume a prefix, best first. -/
def RMatch : Type := Str → List (Str × Str)

/-- A single character of a class. -/
def rChar (p : Char → Bool) : RMatch := fun s =>
  match s with
  | [] => []
  | c :: cs => if p c then [([c], cs)] else []

/-- The empty pattern. -/
def rEmpty : RMatch := fun s => [([], s)]

/-- Sequencing, preserving priority order. -/
def rSeq (a b : RMatch) : RMatch := fun s =>
  (a s).flatMap (fun x => (b x.2).map (fun y => (x.1 ++ y.1, y.2)))

/-- Ordered alternation. -/
def rAlt (a b : RMatch) : RMatch := fun s => a s ++ b s

/-- Greedy option: with the pattern first, then without. -/
def rOpt (a : RMatch) : RMatch := rAlt a rEmpty

/-- Exactly n repetitions. -/
def rRep : Nat → RMatch → RMatch
  | 0, _ => rEmpty
  | n + 1, a => rSeq a (rRep n a)

/-- One-or-more repetitions of a character class, greedy with backtracking:
the candidates are the prefixes of the maximal run, longest first, down to a
single character. -/
def rPlusCls (p : Char → Bool) : RMatch := fun s =>
  let run := s.takeWhile p
  (List.range run.length).map (fun i =>
    let k := run.length - i
    (s.take k, s.drop k))

/-- A case-insensitive literal (the IGNORECASE flag of the source). -/
def rStrCI (lit : Str) : RMatch := fun s =>
  if (s.take lit.length).map Char.toLower = lit.map Char.toLower then
    [(s.take lit.length, s.drop lit.length)]
  else []

/-- re.search for a pattern of the shape prefix-then-capture-group: try each
start position from the left; at a position, prefix candidates and group
candidates are explored in priority order and the first captured group text
wins. -/
def reSearchCapture (pre grp : RMatch) : Str → Option Str
  | [] => ((pre []).flatMap (fun x => (grp x.2).map (fun y => y.1))).head?
  | c :: cs =>
    match ((pre (c :: cs)).flatMap (fun x => (grp x.2).map (fun y => y.1))).head? with
    | some g => some g
    | none => reSearchCapture pre grp cs

/-- The separator class of the aadhaar group. -/
def sepClass (c : Char) : Bool := isSpaceChar c || c = '-'

/-- The colon-or-whitespace class after the aadhaar keyword. -/
def colonSpaceClass (c : Char) : Bool := c = ':' || isSpaceChar c

/-- The literals of the aadhaar keyword alternation. -/
def kwAadhar : Str := "aadhar".toList

/-- The second spelling of the keyword. -/
def kwAadhaar : Str := "aadhaar".toList

/-- The uid keyword. -/
def kwUid : Str := "uid".toList

/-- The no suffix of the keyword forms. -/
def kwNo : Str := "no".toList

/-- The number suffix of the keyword form. -/
def kwNumber : Str := "number".toList

/-- The capture group of both aadhaar patterns: four digits, an optional
space-or-hyphen, four digits, an optional space-or-hyphen, four digits. -/
def aadhaarGroup : RMatch :=
  rSeq (rRep 4 (rChar Char.isDigit))
    (rSeq (rOpt (rChar sepClass))
      (rSeq (rRep 4 (rChar Char.isDigit))
        (rSeq (rOpt (rChar sepClass)) (rRep 4 (rChar Char.isDigit)))))

/-- The keyword alternation of the first aadhaar pattern, in source order:
aadhar, aadhaar, uid, aadhar-no, aadhaar-no, aadhar-number (the spaced forms
use one-or-more whitespace). -/
def aadhaarKeyword : RMatch :=
  rAlt (rStrCI kwAadhar)
    (rAlt (rStrCI kwAadhaar)
      (rAlt (rStrCI kwUid)
        (rAlt (rSeq (rStrCI kwAadhar) (rSeq (rPlusCls isSpaceChar) (rStrCI kwNo)))
          (rAlt (rSeq (rStrCI kwAadhaar) (rSeq (rPlusCls isSpaceChar) (rStrCI kwNo)))
            (rSeq (rStrCI kwAadhar) (rSeq (rPlusCls isSpaceChar) (rStrCI kwNumber)))))))

/-- The first FIELD_PATTERNS entry for aadhar_number: the keyword, one or
more colon-or-whitespace characters, then the captured digit group. -/
def aadhaarPattern1 : SRCCFormParser.Matcher := fun text =>
  .ok (reSearchCapture (rSeq aadhaarKeyword (rPlusCls colonSpaceClass)) aadhaarGroup text)

/-- The second FIELD_PATTERNS entry for aadhar_number: the bare captured
digit group anywhere in the text. -/
def aadhaarPattern2 : SRCCFormParser.Matcher := fun text =>
  .ok (reSearchCapture rEmpty aadhaarGroup text)

/-- The ordered aadhar_number pattern list of FIELD_PATTERNS. -/
def AADHAR_PATTERNS : List SRCCFormParser.Matcher := [aadhaarPattern1, aadhaarPattern2]

/-- The single-field pattern table for the aadhaar examples. -/
def aadhaarTable : List (String × List SRCCFormParser.Matcher) :=
  [ ( "aadhar_number", AADHAR_PATTERNS)]

/-- Example text carrying the keyword and a spaced 12-digit run. -/
def textKeyword12 : Str := "Aadhaar No: 1234 5678 9012".toList

/-- Example text carrying a bare spaced 12-digit run. -/
def textBare12 : Str := "Form 1234 5678 9012 filed".toList

/-- Example text whose digit runs hold only 11 digits. -/
def textDigits11 : Str := "Aadhar No: 1234 5678 901".toList

/-- The expected recovered aadhaar value. -/
def aadhaarClean : Str := "123456789012".toList

/-! ## Theorems -/

namespace MultiProviderOCR

lemma maxByScore_mem (b : OCRResult) (l : List OCRResult) :
    maxByScore b l ∈ b :: l := by
  induction l generalizing b with
  | nil => simp [maxByScore]
  | cons r rs ih =>
    simp only [maxByScore]
    have h := ih (if score_result b < score_result r then r else b)
    rw [List.mem_cons] at h
    rcases h with h | h
    · rw [h]
      split <;> simp
    · simp [h]

lemma maxByScore_le_self (b : OCRResult) (l : List OCRResult) :
    score_result b ≤ score_result (maxByScore b l) := by
  induction l generalizing b with
  | nil => simp [maxByScore]
  | cons r rs ih =>
    simp only [maxByScore]
    refine le_trans ?_ (ih (if score_result b < score_result r then r else b))
    split
    · exact le_of_lt (by assumption)
    · exact le_rfl

lemma maxByScore_le (b : OCRResult) (l : List OCRResult) :
    ∀ s ∈ b :: l, score_result s ≤ score_result (maxByScore b l) := by
  induction l generalizing b with
  | nil => intro s hs; simp at hs; simp [maxByScore, hs]
  | cons r rs ih =>
    intro s hs
    rw [List.mem_cons] at hs
    simp only [maxByScore]
    rcases hs with hs | hs
    · subst hs
      refine le_trans ?_ (maxByScore_le_self _ rs)
      split
      · exact le_of_lt (by assumption)
      · exact le_rfl
    · rw [List.mem_cons] at hs
      rcases hs with hs | hs
      · subst hs
        refine le_trans ?_ (maxByScore_le_self _ rs)
        split
        · exact le_rfl
        · exact le_of_not_lt (by assumption)
      · exact ih _ s (List.mem_cons_of_mem _ hs)

end MultiProviderOCR

lemma dropWhile_eq_self_of {p : Char → Bool} {l : Str} (h : ∀ c ∈ l, p c = false) :
    l.dropWhile p = l := by
  cases l with
  | nil => rfl
  | cons c cs => simp [List.dropWhile_cons, h c (by simp)]

lemma pyStrip_eq_self {l : Str} (h : ∀ c ∈ l, isSpaceChar c = false) : pyStrip l = l := by
  unfold pyStrip
  rw [dropWhile_eq_self_of h,
    dropWhile_eq_self_of (fun c hc => h c (List.mem_reverse.mp hc)), List.reverse_reverse]

lemma pyStrip_replicate (n : Nat) (c : Char) (h : isSpaceChar c = false) :
    pyStrip (List.replicate n c) = List.replicate n c :=
  pyStrip_eq_self (fun d hd => by rw [List.eq_of_mem_replicate hd]; exact h)

lemma score_resA_eq : MultiProviderOCR.score_result resA = 909 / 10 := by
  have h : pyStrip (List.replicate 10 'a') = List.replicate 10 'a' :=
    pyStrip_replicate 10 'a' (by decide)
  simp only [MultiProviderOCR.score_result, resA, h, List.length_replicate]
  norm_num

lemma score_resB_eq : MultiProviderOCR.score_result resB = 210 := by
  have h : pyStrip (List.replicate 2000 'b') = List.replicate 2000 'b' :=
    pyStrip_replicate 2000 'b' (by decide)
  simp only [MultiProviderOCR.score_result, resB, h, List.length_replicate]
  norm_num

/-- C1: over every non-empty set of successful backend results,
extract_with_best_provider returns a collected result whose score
confidence * (1 + length of the stripped raw text / 1000) is maximal; on the
worked example, A scores 90.9, B scores 210, and B is selected. -/
theorem C1_select_best_maximizes :
    (∀ (outcomes : List (Option OCRResult)) (r : OCRResult),
        MultiProviderOCR.extract_with_best_provider outcomes = Except.ok r →
          r ∈ outcomes.filterMap id ∧
            ∀ s ∈ outcomes.filterMap id,
              MultiProviderOCR.score_result s ≤ MultiProviderOCR.score_result r) ∧
      MultiProviderOCR.score_result resA = 909 / 10 ∧
      MultiProviderOCR.score_result resB = 210 ∧
      MultiProviderOCR.extract_with_best_provider [some resA, some resB] = Except.ok resB := by
  refine ⟨?_, score_resA_eq, score_resB_eq, ?_⟩
  · intro outcomes r h
    unfold MultiProviderOCR.extract_with_best_provider at h
    by_cases he : outcomes.isEmpty
    · rw [if_pos he] at h; cases h
    · rw [if_neg he] at h
      cases hfm : outcomes.filterMap id with
      | nil => rw [hfm] at h; cases h
      | cons a rs =>
        rw [hfm] at h
        have hr : r = MultiProviderOCR.maxByScore a rs := by
          injection h with h; exact h.symm
        subst hr
        exact ⟨MultiProviderOCR.maxByScore_mem a rs, MultiProviderOCR.maxByScore_le a rs⟩
  · have hlt : MultiProviderOCR.score_result resA < MultiProviderOCR.score_result resB := by
      rw [score_resA_eq, score_resB_eq]; norm_num
    simp [MultiProviderOCR.extract_with_best_provider, MultiProviderOCR.maxByScore, hlt]

/-- C1 witness: the universal part applied to the concrete two-result list. -/
theorem C1_select_best_witness :
    resB ∈ ([some resA, some resB].filterMap id) ∧
      ∀ s ∈ ([some resA, some resB].filterMap id),
        MultiProviderOCR.score_result s ≤ MultiProviderOCR.score_result resB :=
  C1_select_best_maximizes.1 [some resA, some resB] resB
    C1_select_best_maximizes.2.2.2

/-- C5: a backend that raises during extract_with_best_provider is skipped
without aborting the remaining backends (removing the raising outcome does
not change the result), and for a non-empty backend list the call fails with
the all-providers-failed error exactly when every backend failed. -/
theorem C5_backend_failures_isolated :
    (∀ (xs ys : List (Option OCRResult)), xs ++ ys ≠ [] →
        MultiProviderOCR.extract_with_best_provider (xs ++ none :: ys) =
          MultiProviderOCR.extract_with_best_provider (xs ++ ys)) ∧
      ∀ (outcomes : List (Option OCRResult)), outcomes ≠ [] →
        (MultiProviderOCR.extract_with_best_provider outcomes =
            Except.error MultiProviderOCR.OCRFailure.allProvidersFailed ↔
          ∀ o ∈ outcomes, o = none) := by
  constructor
  · intro xs ys hne
    unfold MultiProviderOCR.extract_with_best_provider
    rw [if_neg (by simp), if_neg (by simpa [List.isEmpty_iff] using hne)]
    have h : (xs ++ none :: ys).filterMap id = (xs ++ ys).filterMap id := by
      simp [List.filterMap_append]
    rw [h]
  · intro outcomes hne
    unfold MultiProviderOCR.extract_with_best_provider
    rw [if_neg (by simpa [List.isEmpty_iff] using hne)]
    cases hfm : outcomes.filterMap id with
    | nil =>
      constructor
      · intro _ o ho
        have h2 := List.filterMap_eq_nil_iff.mp hfm o ho
        simpa using h2
      · intro _
        rfl
    | cons a rs =>
      constructor
      · intro h; cases h
      · intro hall
        exfalso
        have h0 : outcomes.filterMap id = [] :=
          List.filterMap_eq_nil_iff.mpr (fun o ho => by rw [hall o ho]; rfl)
        rw [h0] at hfm
        cases hfm

/-- C5 witness: the two parts applied at concrete backend lists. -/
theorem C5_backend_failures_witness :
    MultiProviderOCR.extract_with_best_provider [some resA, none, some resB] =
        MultiProviderOCR.extract_with_best_provider [some resA, some resB] ∧
      (MultiProviderOCR.extract_with_best_provider [none, none] =
          Except.error MultiProviderOCR.OCRFailure.allProvidersFailed ↔
        ∀ o ∈ ([none, none] : List (Option OCRResult)), o = none) :=
  ⟨C5_backend_failures_isolated.1 [some resA] [some resB] (by simp),
    C5_backend_failures_isolated.2 [none, none] (by simp)⟩

lemma foldl_uploadStep (l : List (Nat × Option PageOut)) :
    ∀ ts cs es, l.foldl uploadStep (ts, cs, es) =
      (ts ++ l.filterMap textFragOf, cs ++ l.filterMap confOf, es ++ l.filterMap entryOf) := by
  induction l with
  | nil => intro ts cs es; simp
  | cons x l ih =>
    intro ts cs es
    rw [List.foldl_cons]
    cases hx : x.2 with
    | none =>
      rw [show uploadStep (ts, cs, es) x = (ts, cs, es) from by simp [uploadStep, hx]]
      simp [ih, textFragOf, confOf, entryOf, hx]
    | some pr =>
      by_cases h1 : pr.raw_text = [] <;> by_cases h2 : pyTruthyConf pr.confidence = true <;>
        simp [uploadStep, hx, h1, h2, ih, textFragOf, confOf, entryOf, Option.bind]

lemma upload_aggregate_page_results (outcomes : List (Option PageOut)) (p : String) :
    (upload_form_aggregate outcomes p).page_results = pageEntriesOf outcomes := by
  simp [upload_form_aggregate, foldl_uploadStep, pageEntriesOf]

lemma upload_aggregate_confidence (outcomes : List (Option PageOut)) (p : String) :
    (upload_form_aggregate outcomes p).confidence =
      round2 (if confsOf outcomes = [] then 0
        else (confsOf outcomes).sum / ((confsOf outcomes).length : ℚ)) := by
  simp only [upload_form_aggregate]
  rw [foldl_uploadStep]
  simp [confsOf]

lemma length_filterMap_entryOf (l : List (Option PageOut)) :
    ∀ k, ((List.enumFrom k l).filterMap entryOf).length = (l.filterMap id).length := by
  induction l with
  | nil => intro k; rfl
  | cons o l ih =>
    intro k
    cases o with
    | none => simpa [List.enumFrom, entryOf, List.filterMap_cons] using ih (k + 1)
    | some pr => simpa [List.enumFrom, entryOf, List.filterMap_cons] using ih (k + 1)

lemma entryOf_mem_enumFrom (l : List (Option PageOut)) :
    ∀ (k : Nat) (e : PageEntry), e ∈ (List.enumFrom k l).filterMap entryOf →
      ∃ j pr, l.get? j = some (some pr) ∧ e.page = k + j + 1 ∧ e.raw_text = pr.raw_text := by
  induction l with
  | nil => intro k e h; simp [List.enumFrom] at h
  | cons o l ih =>
    intro k e h
    cases o with
    | none =>
      rw [show List.enumFrom k (none :: l) = (k, none) :: List.enumFrom (k + 1) l from rfl,
        List.filterMap_cons] at h
      obtain ⟨j, pr, h1, h2, h3⟩ := ih (k + 1) e (by simpa [entryOf] using h)
      exact ⟨j + 1, pr, by simpa using h1, by omega, h3⟩
    | some pr0 =>
      rw [show List.enumFrom k (some pr0 :: l) = (k, some pr0) :: List.enumFrom (k + 1) l from rfl,
        List.filterMap_cons] at h
      have he : e = ⟨k + 1, pr0.raw_text, pr0.confidence.getD 0⟩ ∨
          e ∈ (List.enumFrom (k + 1) l).filterMap entryOf := by
        simpa [entryOf] using h
      rcases he with he | he
      · exact ⟨0, pr0, rfl, by rw [he], by rw [he]⟩
      · obtain ⟨j, pr, h1, h2, h3⟩ := ih (k + 1) e he
        exact ⟨j + 1, pr, by simpa using h1, by omega, h3⟩

/-- C2 counterexample: aggregating three pages where page 2 raised yields
pages_processed 3 but only two surviving page_results entries, refuting the
claimed invariant pages_processed = len(page_results). -/
theorem C2_counterexample :
    (upload_form_aggregate [some pageA, none, some pageC] "tesseract").pages_processed = 3 ∧
      (upload_form_aggregate [some pageA, none, some pageC] "tesseract").page_results.length = 2 ∧
      (upload_form_aggregate [some pageA, none, some pageC] "tesseract").pages_processed ≠
        (upload_form_aggregate [some pageA, none, some pageC] "tesseract").page_results.length := by
  refine ⟨by decide, by decide, by decide⟩

/-- C2 amended: in the upload aggregation pages_processed counts the loaded
pages, page_results keeps one entry per successful page (a failed page is
dropped), so page_results can only be shorter; the benchmark aggregation,
which has no per-page failure absorption, does set pages_processed to
len(page_results). -/
theorem C2_pages_processed_amended :
    (∀ (outcomes : List (Option PageOut)) (p : String),
        (upload_form_aggregate outcomes p).pages_processed = outcomes.length ∧
          (upload_form_aggregate outcomes p).page_results.length =
            (outcomes.filterMap id).length ∧
          (upload_form_aggregate outcomes p).page_results.length ≤
            (upload_form_aggregate outcomes p).pages_processed) ∧
      ∀ (pages : List PageOut) (p : String),
        (benchmark_aggregate_pdf pages p).pages_processed =
          (benchmark_aggregate_pdf pages p).page_results.length := by
  constructor
  · intro outcomes p
    have h1 : (upload_form_aggregate outcomes p).pages_processed = outcomes.length := by
      simp [upload_form_aggregate]
    have h2 : (upload_form_aggregate outcomes p).page_results.length =
        (outcomes.filterMap id).length := by
      rw [upload_aggregate_page_results]
      exact length_filterMap_entryOf outcomes 0
    refine ⟨h1, h2, ?_⟩
    rw [h1, h2]
    exact List.length_filterMap_le id outcomes
  · intro pages p
    rfl

/-- C3 counterexample: a page that returned confidence 80 with empty raw
text is excluded from the confidence mean, so the aggregate confidence is 0
rather than the mean (80) over pages that produced a confidence value. -/
theorem C3_counterexample :
    pageEmptyText.confidence = some 80 ∧
      (upload_form_aggregate [some pageEmptyText] "tesseract").confidence = 0 ∧
      (0 : ℚ) ≠ 80 := by
  refine ⟨rfl, ?_, by norm_num⟩
  simp [upload_form_aggregate, uploadStep, pageEmptyText, pyTruthyConf, round2, pyRoundHalfEven,
    List.enum, List.enumFrom, List.intercalate]

/-- C3 amended: every surviving page_results entry carries the 1-based
position of its page in the source document (failed pages do not shift the
numbering, so surviving pages 1 and 3 keep numbers 1 and 3), and the
aggregate confidence is the two-decimal rounding of the mean over exactly
those pages with non-empty raw text and non-zero confidence, 0.0 if none. -/
theorem C3_numbering_and_confidence :
    (∀ (outcomes : List (Option PageOut)) (p : String),
        (upload_form_aggregate outcomes p).page_results = pageEntriesOf outcomes) ∧
      (∀ (outcomes : List (Option PageOut)) (p : String) (e : PageEntry),
        e ∈ (upload_form_aggregate outcomes p).page_results →
          ∃ j pr, outcomes.get? j = some (some pr) ∧ e.page = j + 1 ∧
            e.raw_text = pr.raw_text) ∧
      (∀ (outcomes : List (Option PageOut)) (p : String),
        (upload_form_aggregate outcomes p).confidence =
          round2 (if confsOf outcomes = [] then 0
            else (confsOf outcomes).sum / ((confsOf outcomes).length : ℚ))) ∧
      (upload_form_aggregate [some pageA, none, some pageC] "tesseract").page_results.map
          PageEntry.page = [1, 3] := by
  refine ⟨upload_aggregate_page_results, ?_, upload_aggregate_confidence, by decide⟩
  intro outcomes p e he
  rw [upload_aggregate_page_results] at he
  obtain ⟨j, pr, h1, h2, h3⟩ := entryOf_mem_enumFrom outcomes 0 e he
  exact ⟨j, pr, h1, by omega, h3⟩

/-- C3 witness: the numbering part applied to the surviving page 3 entry of
the concrete three-page scenario. -/
theorem C3_numbering_witness :
    ∃ j pr, ([some pageA, none, some pageC] : List (Option PageOut)).get? j = some (some pr) ∧
      (PageEntry.mk 3 ("pagethree".toList) 90).page = j + 1 ∧
      (PageEntry.mk 3 ("pagethree".toList) 90).raw_text = pr.raw_text :=
  C3_numbering_and_confidence.2.1 [some pageA, none, some pageC] "tesseract"
    ⟨3, "pagethree".toList, 90⟩ (by decide)

lemma autoLoop_some_spec (total : Nat) :
    ∀ (rest : List Nat) (level cumulative ℓ : Nat),
      autoLoop total level rest cumulative = some ℓ →
      level ≤ ℓ ∧ ℓ < level + rest.length ∧
        total ≤ 2 * (cumulative + (rest.take (ℓ + 1 - level)).sum) ∧
        ∀ m, level ≤ m → m < ℓ → 2 * (cumulative + (rest.take (m + 1 - level)).sum) < total := by
  intro rest
  induction rest with
  | nil => intro level c ℓ h; exact absurd h (by simp [autoLoop])
  | cons count rest ih =>
    intro level c ℓ h
    rw [show autoLoop total level (count :: rest) c =
        (if total ≤ 2 * (c + count) then some level
          else autoLoop total (level + 1) rest (c + count)) from rfl] at h
    by_cases hc : total ≤ 2 * (c + count)
    · rw [if_pos hc] at h
      injection h with h
      refine ⟨by omega, by simp; omega, ?_, by intro m hm1 hm2; omega⟩
      have h1 : ℓ + 1 - level = 1 := by omega
      rw [h1, List.take_succ_cons, List.take_zero, List.sum_cons, List.sum_nil]
      omega
    · rw [if_neg hc] at h
      obtain ⟨h1, h2, h3, h4⟩ := ih (level + 1) (c + count) ℓ h
      have hne : ℓ + 1 - level = (ℓ - level) + 1 := by omega
      have hne2 : ℓ + 1 - (level + 1) = ℓ - level := by omega
      refine ⟨by omega, by simp at h2 ⊢; omega, ?_, ?_⟩
      · rw [hne, List.take_succ_cons, List.sum_cons]
        rw [hne2] at h3
        omega
      · intro m hm1 hm2
        by_cases hm : m = level
        · subst hm
          have h5 : m + 1 - m = 1 := by omega
          rw [h5, List.take_succ_cons, List.take_zero, List.sum_cons, List.sum_nil]
          omega
        · have hm1b : level + 1 ≤ m := by omega
          have h5 := h4 m hm1b hm2
          have hme : m + 1 - level = (m - level) + 1 := by omega
          have hme2 : m + 1 - (level + 1) = m - level := by omega
          rw [hme, List.take_succ_cons, List.sum_cons]
          rw [hme2] at h5
          omega

lemma autoLoop_isSome (total : Nat) :
    ∀ (rest : List Nat) (level cumulative : Nat), rest ≠ [] →
      total ≤ 2 * (cumulative + rest.sum) → (autoLoop total level rest cumulative).isSome := by
  intro rest
  induction rest with
  | nil => intro level c h _; exact absurd rfl h
  | cons count rest ih =>
    intro level c _ htot
    rw [show autoLoop total level (count :: rest) c =
        (if total ≤ 2 * (c + count) then some level
          else autoLoop total (level + 1) rest (c + count)) from rfl]
    by_cases hc : total ≤ 2 * (c + count)
    · rw [if_pos hc]; rfl
    · rw [if_neg hc]
      cases rest with
      | nil =>
        exfalso
        simp [List.sum_cons, List.sum_nil] at htot
        omega
      | cons a l =>
        refine ih (level + 1) (c + count) (by simp) ?_
        simp [List.sum_cons] at htot ⊢
        omega

lemma auto_threshold_spec (img : PImage) :
    totalPixels img ≤ 2 * cumMass img (auto_threshold img) ∧
      auto_threshold img ≤ 255 ∧
      ∀ level < auto_threshold img, 2 * cumMass img level < totalPixels img := by
  have hne : histogram img ≠ [] := by simp [histogram]
  have hsum : (histogram img).sum ≤ 2 * (0 + (histogram img).sum) := by omega
  have hs := autoLoop_isSome (histogram img).sum (histogram img) 0 0 hne hsum
  obtain ⟨ℓ, hℓ⟩ := Option.isSome_iff_exists.mp hs
  have hth : auto_threshold img = ℓ := by simp [auto_threshold, hℓ]
  obtain ⟨h1, h2, h3, h4⟩ := autoLoop_some_spec (histogram img).sum (histogram img) 0 0 ℓ hℓ
  have hlen : (histogram img).length = 256 := by simp [histogram]
  rw [hth]
  refine ⟨?_, by omega, ?_⟩
  · simpa [cumMass, totalPixels] using h3
  · intro m hm
    have h5 := h4 m (Nat.zero_le m) hm
    simpa [cumMass, totalPixels] using h5

lemma count_replicate_white (n v : Nat) :
    (List.replicate n 255).count v = if v = 255 then n else 0 := by
  induction n with
  | zero => simp
  | succ n ih =>
    rw [List.replicate_succ, List.count_cons, ih]
    by_cases hv : v = 255
    · simp [hv]
    · simp [hv]
      exact fun h => hv h.symm

lemma histogram_white (w h n : Nat) :
    histogram ⟨w, h, PMode.L, List.replicate n 255⟩ =
      (List.range 256).map (fun v => if v = 255 then n else 0) := by
  simp [histogram, count_replicate_white]

lemma totalPixels_white (w h n : Nat) :
    totalPixels ⟨w, h, PMode.L, List.replicate n 255⟩ = n := by
  rw [totalPixels, histogram_white]
  rw [show (256 : Nat) = 255 + 1 from rfl, List.range_succ, List.map_append, List.sum_append]
  have h0 : ((List.range 255).map (fun v => if v = 255 then n else 0)).sum = 0 := by
    apply List.sum_eq_zero
    intro x hx
    obtain ⟨v, hv, rfl⟩ := List.mem_map.mp hx
    have hvlt : v < 255 := List.mem_range.mp hv
    simp [Nat.ne_of_lt hvlt]
  rw [h0]
  simp

lemma cumMass_white (w h n : Nat) (level : Nat) (hlt : level < 255) :
    cumMass ⟨w, h, PMode.L, List.replicate n 255⟩ level = 0 := by
  rw [cumMass, histogram_white, ← List.map_take, List.take_range]
  apply List.sum_eq_zero
  intro x hx
  obtain ⟨v, hv, rfl⟩ := List.mem_map.mp hx
  have hvlt : v < min (level + 1) 256 := List.mem_range.mp hv
  have : v ≠ 255 := by omega
  simp [this]

lemma auto_threshold_white (w h n : Nat) (hn : 0 < n) :
    auto_threshold ⟨w, h, PMode.L, List.replicate n 255⟩ = 255 := by
  obtain ⟨h1, h2, _⟩ := auto_threshold_spec ⟨w, h, PMode.L, List.replicate n 255⟩
  by_contra hne
  have ht : auto_threshold ⟨w, h, PMode.L, List.replicate n 255⟩ < 255 :=
    lt_of_le_of_ne h2 hne
  rw [cumMass_white w h n _ ht, totalPixels_white] at h1
  omega

lemma binarize_white (w h n : Nat) :
    binarize_image ⟨w, h, PMode.L, List.replicate n 255⟩ none =
      ⟨w, h, PMode.RGB, List.replicate n 255⟩ := by
  cases Nat.eq_zero_or_pos n with
  | inl h0 =>
    subst h0
    rfl
  | inr hpos =>
    have ht := auto_threshold_white w h n hpos
    simp only [binarize_image, ht, List.map_replicate]
    norm_num [binPoint]

lemma binPoint_idem (tn : Nat) (h : tn ≤ 255) (x : Nat) :
    binPoint tn (binPoint tn x) = binPoint tn x := by
  unfold binPoint
  by_cases hx : x < tn
  · rw [if_pos hx, if_pos (by omega)]
  · rw [if_neg hx, if_neg (by omega)]

/-- C7: the automatic threshold is the first gray level at which the
cumulative histogram mass reaches half the pixels (it reaches half there and
every smaller level is below half); binarizing an all-white image with the
automatic threshold leaves it fully white; and binarization at a fixed valid
threshold is idempotent. -/
theorem C7_binarize_threshold_properties :
    (∀ img : PImage,
        totalPixels img ≤ 2 * cumMass img (auto_threshold img) ∧
          auto_threshold img ≤ 255 ∧
          ∀ level < auto_threshold img, 2 * cumMass img level < totalPixels img) ∧
      (∀ w h n : Nat,
        binarize_image ⟨w, h, PMode.L, List.replicate n 255⟩ none =
          ⟨w, h, PMode.RGB, List.replicate n 255⟩) ∧
      ∀ (img : PImage) (t : ℤ), 0 ≤ t → t ≤ 255 →
        binarize_image (binarize_image img (some t)) (some t) =
          binarize_image img (some t) := by
  refine ⟨auto_threshold_spec, binarize_white, ?_⟩
  intro img t h0 h255
  have hv : ¬(t < 0 ∨ 255 < t) := by omega
  simp only [binarize_image, if_neg hv, List.map_map]
  have hcomp : ∀ x ∈ img.pixels, (binPoint t.toNat ∘ binPoint t.toNat) x = binPoint t.toNat x :=
    fun x _ => binPoint_idem t.toNat (by omega) x
  rw [List.map_congr_left hcomp]

/-- C7 witness: the characterization and the idempotence applied to a
concrete grayscale image and threshold 128. -/
theorem C7_binarize_witness :
    totalPixels sampleGray ≤ 2 * cumMass sampleGray (auto_threshold sampleGray) ∧
      binarize_image (binarize_image sampleGray (some 128)) (some 128) =
        binarize_image sampleGray (some 128) :=
  ⟨(C7_binarize_threshold_properties.1 sampleGray).1,
    C7_binarize_threshold_properties.2.2 sampleGray 128 (by norm_num) (by norm_num)⟩

/-- C4: requesting an upscale by factor 2 of a 1000 by 1000 image with the
max-dimension cap at 500 produces a 500 by 500 result: the effective scale is
1/2, below 1.0, although the code comment and the spec promise that an
explicit upscale request is never turned into a downscale.  The min on the
clamped branch re-selects the cap ratio, contradicting the comment above it. -/
theorem C4_cap_overrides_upscale :
    (resize_with_limit pilOps img1000 2 (some 500)).width = 500 ∧
      (resize_with_limit pilOps img1000 2 (some 500)).height = 500 ∧
      (500 : Nat) < 1000 := by
  have h : (resize_with_limit pilOps img1000 2 (some 500)).width = 500 ∧
      (resize_with_limit pilOps img1000 2 (some 500)).height = 500 := by
    simp [resize_with_limit, img1000, pilOps]
    norm_num [abs_of_pos]
    rfl
  exact ⟨h.1, h.2, by norm_num⟩

/-- C9 counterexample: preprocess_image performs no dimension validation; on
a zero-dimension image (with every optional stage off) it returns normally,
the RGB-conversion stage having run, instead of rejecting the input. -/
theorem C9_counterexample :
    preprocess_image pilOps zeroImage false false false 1 false (3 / 2) (13 / 10) 3 (some 128)
        none = { zeroImage with mode := PMode.RGB } ∧
      zeroImage.width = 0 :=
  ⟨by decide, rfl⟩

/-- C9 amended: the zero-dimension rejection lives in the OCR provider, not
in preprocess_image: TesseractProvider.extract_text raises the invalid
dimensions error before enhance_for_ocr is invoked, for every choice of the
external operations, settings and preprocess flag. -/
theorem C9_zero_dimension_rejected_by_provider :
    ∀ (ops : PILOps) (s : OCRSettings) (img : PImage) (pre : Bool),
      img.width = 0 ∨ img.height = 0 →
      TesseractProvider.validate_and_enhance ops s (some img) pre =
        Except.error "Image has invalid dimensions" := by
  intro ops s img pre h
  unfold TesseractProvider.validate_and_enhance
  by_cases hm : img.mode ∈ [PMode.RGB, PMode.L, PMode.BW] <;>
    rcases h with h | h <;> simp [hm, h]

/-- C9 witness: the amended rejection applied to a concrete zero-size image. -/
theorem C9_zero_dimension_witness :
    TesseractProvider.validate_and_enhance pilOps defaultSettings (some zeroImage) true =
      Except.error "Image has invalid dimensions" :=
  C9_zero_dimension_rejected_by_provider pilOps defaultSettings zeroImage true (Or.inl rfl)

lemma foldl_parseStep (text : Str) (tbl : List (String × List SRCCFormParser.Matcher)) :
    ∀ acc, tbl.foldl (SRCCFormParser.parseStep text) acc =
      acc ++ tbl.filterMap (SRCCFormParser.fieldEntryOf text) := by
  induction tbl with
  | nil => intro acc; simp
  | cons fp tbl ih =>
    intro acc
    rw [List.foldl_cons, ih, List.filterMap_cons]
    cases hx : SRCCFormParser.extract_field text fp.2 fp.1 with
    | none => simp [SRCCFormParser.parseStep, SRCCFormParser.fieldEntryOf, hx]
    | some v =>
      by_cases hv : v = [] <;>
        simp [SRCCFormParser.parseStep, SRCCFormParser.fieldEntryOf, hx, hv]

lemma parse_eq_fieldEntries (table : List (String × List SRCCFormParser.Matcher))
    (raw_text : Str) :
    SRCCFormParser.parse table raw_text =
      table.filterMap (SRCCFormParser.fieldEntryOf (normalizeWS raw_text)) := by
  unfold SRCCFormParser.parse
  rw [foldl_parseStep]
  simp

lemma extract_field_validates (text : Str) (ps : List SRCCFormParser.Matcher) :
    ∀ (f : String) (v : Str), SRCCFormParser.extract_field text ps f = some v →
      SRCCFormParser.validate_value v f = true := by
  induction ps with
  | nil => intro f v h; simp [SRCCFormParser.extract_field] at h
  | cons p rest ih =>
    intro f v h
    cases hp : p text with
    | error e =>
      rw [SRCCFormParser.extract_field, hp] at h
      exact ih f v h
    | ok o =>
      cases o with
      | none =>
        rw [SRCCFormParser.extract_field, hp] at h
        exact ih f v h
      | some value =>
        simp only [SRCCFormParser.extract_field, hp] at h
        by_cases hval : value = []
        · rw [if_pos hval] at h; exact ih f v h
        · rw [if_neg hval] at h
          by_cases hv2 :
            SRCCFormParser.validate_value (SRCCFormParser.clean_value value f) f = true
          · rw [if_pos hv2] at h
            injection h with h
            rw [← h]
            exact hv2
          · rw [if_neg hv2] at h; exact ih f v h

lemma validate_value_length {v : Str} {f : String}
    (h : SRCCFormParser.validate_value v f = true) : 2 ≤ v.length := by
  by_contra hlen
  push_neg at hlen
  rw [SRCCFormParser.validate_value, if_pos (Or.inr hlen)] at h
  cases h

lemma fieldEntryOf_some {text : Str} {fp : String × List SRCCFormParser.Matcher}
    {y : String × Str} (h : SRCCFormParser.fieldEntryOf text fp = some y) :
    y.1 = fp.1 ∧ SRCCFormParser.extract_field text fp.2 fp.1 = some y.2 ∧ y.2 ≠ [] := by
  unfold SRCCFormParser.fieldEntryOf at h
  cases hx : SRCCFormParser.extract_field text fp.2 fp.1 with
  | none => rw [hx] at h; simp at h
  | some v =>
    rw [hx] at h
    by_cases hv : v = []
    · simp [hv] at h
    · dsimp only [Option.bind] at h
      rw [if_pos hv] at h
      injection h with h
      subst h
      exact ⟨rfl, rfl, hv⟩

/-- C6: the extractor is total and fieldwise independent: parse equals the
fieldwise filterMap of per-field extraction over the same normalized text, a
pattern whose matcher raises is skipped exactly as a pattern that fails to
match, and a field all of whose patterns fail is absent from the result
without affecting the other fields. -/
theorem C6_extractor_total_and_independent :
    (∀ (table : List (String × List SRCCFormParser.Matcher)) (raw_text : Str),
        SRCCFormParser.parse table raw_text =
          table.filterMap (SRCCFormParser.fieldEntryOf (normalizeWS raw_text))) ∧
      (∀ (text : Str) (ms : List SRCCFormParser.Matcher) (f : String),
        SRCCFormParser.extract_field text (SRCCFormParser.raisingMatcher :: ms) f =
          SRCCFormParser.extract_field text ms f) ∧
      ∀ (table : List (String × List SRCCFormParser.Matcher)) (raw_text : Str)
        (fp : String × List SRCCFormParser.Matcher),
        (table.map Prod.fst).Nodup → fp ∈ table →
        SRCCFormParser.extract_field (normalizeWS raw_text) fp.2 fp.1 = none →
        fp.1 ∉ (SRCCFormParser.parse table raw_text).map Prod.fst := by
  refine ⟨parse_eq_fieldEntries, fun text ms f => rfl, ?_⟩
  intro table raw_text fp hnodup hmem hnone hin
  rw [parse_eq_fieldEntries] at hin
  obtain ⟨y, hy, hyfst⟩ := List.mem_map.mp hin
  obtain ⟨fp2, hfp2, hfe⟩ := List.mem_filterMap.mp hy
  obtain ⟨hkey, hex, hne⟩ := fieldEntryOf_some hfe
  have heq : fp2.1 = fp.1 := by rw [← hkey, hyfst]
  have : fp2 = fp := List.inj_on_of_nodup_map hnodup hfp2 hmem heq
  subst this
  rw [hnone] at hex
  cases hex

/-- C6 witness: the independence and the absence applied to the concrete
aadhaar table over the eleven-digit text. -/
theorem C6_extractor_witness :
    SRCCFormParser.parse aadhaarTable textDigits11 =
        aadhaarTable.filterMap (SRCCFormParser.fieldEntryOf (normalizeWS textDigits11)) ∧
      "aadhar_number" ∉ (SRCCFormParser.parse aadhaarTable textDigits11).map Prod.fst :=
  ⟨C6_extractor_total_and_independent.1 aadhaarTable textDigits11,
    C6_extractor_total_and_independent.2.2 aadhaarTable textDigits11
      ( "aadhar_number", AADHAR_PATTERNS) (by simp [aadhaarTable])
      (by simp [aadhaarTable]) (by decide)⟩

/-- C10: for every pattern table carrying the FIELD_PATTERNS keys and every
input text, every key of the parse result belongs to the FIELD_PATTERNS key
set, and every value is a string of length at least two (the universal
validation floor); a failing field is omitted entirely, never mapped to an
empty value. -/
theorem C10_keys_and_value_floor :
    ∀ (table : List (String × List SRCCFormParser.Matcher)) (raw_text : Str),
      table.map Prod.fst = SRCCFormParser.FIELD_PATTERN_KEYS →
        (∀ k ∈ (SRCCFormParser.parse table raw_text).map Prod.fst,
          k ∈ SRCCFormParser.FIELD_PATTERN_KEYS) ∧
        ∀ fv ∈ SRCCFormParser.parse table raw_text, 2 ≤ fv.2.length ∧ fv.2 ≠ [] := by
  intro table raw_text hkeys
  constructor
  · intro k hk
    rw [parse_eq_fieldEntries] at hk
    obtain ⟨y, hy, hyfst⟩ := List.mem_map.mp hk
    obtain ⟨fp, hfp, hfe⟩ := List.mem_filterMap.mp hy
    obtain ⟨hkey, -, -⟩ := fieldEntryOf_some hfe
    rw [← hyfst, hkey, ← hkeys]
    exact List.mem_map_of_mem Prod.fst hfp
  · intro fv hfv
    rw [parse_eq_fieldEntries] at hfv
    obtain ⟨fp, hfp, hfe⟩ := List.mem_filterMap.mp hfv
    obtain ⟨-, hex, hne⟩ := fieldEntryOf_some hfe
    exact ⟨validate_value_length (extract_field_validates _ _ _ _ hex), hne⟩

/-- C10 witness: the key and floor properties applied to the concrete table
carrying the FIELD_PATTERNS keys and a concrete noisy text. -/
theorem C10_keys_witness :
    (∀ k ∈ (SRCCFormParser.parse SRCCFormParser.emptyPatternsTable
        "noise text".toList).map Prod.fst, k ∈ SRCCFormParser.FIELD_PATTERN_KEYS) ∧
      ∀ fv ∈ SRCCFormParser.parse SRCCFormParser.emptyPatternsTable "noise text".toList,
        2 ≤ fv.2.length ∧ fv.2 ≠ [] :=
  C10_keys_and_value_floor SRCCFormParser.emptyPatternsTable "noise text".toList rfl

set_option maxRecDepth 40000 in
/-- C8: on text carrying the 12-digit run 1234 5678 9012 (with or without
the aadhaar keyword) the parser recovers aadhar_number as 123456789012, the
separating spaces removed by cleaning; on text whose digit runs hold only 11
digits every candidate fails and the field is absent; and the aadhar_number
validator accepts exactly the values with exactly 12 digits. -/
theorem C8_aadhaar_field_recovery :
    SRCCFormParser.parse aadhaarTable textKeyword12 = [ ( "aadhar_number", aadhaarClean)] ∧
      SRCCFormParser.parse aadhaarTable textBare12 = [ ( "aadhar_number", aadhaarClean)] ∧
      SRCCFormParser.parse aadhaarTable textDigits11 = [] ∧
      ∀ v : Str, SRCCFormParser.validate_value v "aadhar_number" =
        decide ((v.filter Char.isDigit).length = 12) := by
  refine ⟨by decide, by decide, by decide, ?_⟩
  intro v
  unfold SRCCFormParser.validate_value
  by_cases h2 : v = [] ∨ v.length < 2
  · rw [if_pos h2]
    have hle : (v.filter Char.isDigit).length ≤ v.length := List.length_filter_le _ v
    have hlen : v.length < 2 := by
      rcases h2 with h | h
      · subst h; simp
      · exact h
    have hne : ¬((v.filter Char.isDigit).length = 12) := by omega
    simp [hne]
  · rw [if_neg h2, if_neg (by decide), if_neg (by decide), if_neg (by decide),
      if_neg (by decide), if_neg (by decide), if_pos (by decide)]
